import Mathlib

/-!
Verification development for the Phabricator plugin of `did`
(src/did/plugins/phabricator.py).

The plugin's core is an investigator class `Phabricator` that issues
cursor-paginated Conduit API queries (`_get_page`, `_get_all_pages`),
resolves login names to PHIDs (`login_phids`), searches differentials
and transactions (`search_diffs`, `search_transactions`), record models
(`Differential`, `TransactionEvent` with `is_in_date_range` / `is_type`),
and three report assemblers (`DifferentialsCommented`,
`DifferentialsCreated`, `DifferentialsReviewed`).

We embed those parts shallowly: Python dicts become association lists
with insert-or-overwrite update, the HTTP layer becomes an explicit
script of responses consumed page by page, calendar dates become
integers (ordinal day numbers) with an explicit timezone offset for the
local-time conversion done by `datetime.date.fromtimestamp`.
-/

namespace Phab

/-- Values stored in a Python dict sent as POST data: strings, numbers
and `None`. -/
inductive Val where
  | str : String → Val
  | nat : Nat → Val
  | null : Val
deriving DecidableEq, Repr

/-- A Python dict with string keys, as an ordered association list with
unique keys (insertion order preserved, as in CPython). -/
abbrev Dict := List (String × Val)

/-- Dict lookup: `d[k]` / `k in d`. Returns `none` when the key is absent. -/
def dget (d : Dict) (k : String) : Option Val :=
  match d with
  | [] => none
  | (k', v) :: rest => if k' = k then some v else dget rest k

/-- Dict update `d[k] = v`: overwrite in place when the key exists,
append at the end otherwise (CPython insertion-order semantics). -/
def dset (d : Dict) (k : String) (v : Val) : Dict :=
  match d with
  | [] => [(k, v)]
  | (k', v') :: rest => if k' = k then (k, v) :: rest else (k', v') :: dset rest k v

/-- Maximum number of entries to be fetched per page
(`Phabricator.MAX_PAGE_SIZE`). -/
def MAX_PAGE_SIZE : Nat := 100

/-- A parsed Conduit response envelope, as consumed by `_get_page` and
`_get_all_pages`: `error_info` (`none` models JSON null), the `result`
container's `data` list (`none` models a missing `result` key), and the
`cursor` container (`none` models a missing `cursor` key, `some none`
models `cursor.after` being null, `some (some c)` a continuation
token `c`). -/
structure ConduitResponse (α : Type) where
  error_info : Option String
  result : Option (List α)
  cursor : Option (Option String)

/-- Outcome of one `requests.post` call in `_get_page`: a raised
`RequestException`, or an HTTP response with a status code and a body
(`none` models a body that fails JSON decoding). -/
inductive HttpResult (α : Type) where
  | failure : HttpResult α
  | response (statusCode : Nat) (body : Option (ConduitResponse α)) : HttpResult α

/-- The errors `_get_page` / `_get_all_pages` raise: `transport` is the
`ReportError` raised on `RequestException`, `unexpectedStatus` the
`RuntimeError` on a non-200 status, `parse` the `ReportError` on a JSON
decode failure, `remoteApi` the `RuntimeError` on non-null `error_info`,
and `missingResult` the `ReportError` on a response without a `result`
key. -/
inductive QueryError where
  | transport (url : String)
  | unexpectedStatus (code : Nat)
  | parse
  | remoteApi (info : String)
  | missingResult
deriving DecidableEq, Repr

/-- The dict mutation `_get_page` performs before posting: default
`limit` to `MAX_PAGE_SIZE` when unset, then default `api.token` to the
configured token when unset. -/
def prepare_page (token : String) (d : Dict) : Dict :=
  let d1 := match dget d "limit" with
    | some _ => d
    | none => dset d "limit" (Val.nat MAX_PAGE_SIZE)
  match dget d1 "api.token" with
  | some _ => d1
  | none => dset d1 "api.token" (Val.str token)

/-- The outcome classification of `Phabricator._get_page` (lines
156-180): a raised `RequestException` becomes a transport error, a
non-200 status an unexpected-status error, an unparseable body a parse
error; a parsed body with non-null `error_info` raises the remote API
error (the `RuntimeError` raised inside the `try` block is not a
`JSONDecodeError`, so the `except` clause does not catch it), and
otherwise the decoded response is returned. -/
def get_page_classify {α : Type} (url : String) (http : HttpResult α) :
    Except QueryError (ConduitResponse α) :=
  match http with
  | HttpResult.failure => Except.error (QueryError.transport url)
  | HttpResult.response statusCode body =>
    if statusCode ≠ 200 then Except.error (QueryError.unexpectedStatus statusCode)
    else
      match body with
      | none => Except.error QueryError.parse
      | some decoded =>
        match decoded.error_info with
        | some info => Except.error (QueryError.remoteApi info)
        | none => Except.ok decoded

/-- Model of `Phabricator._get_page`: default `limit` and `api.token` into the
data dict, post it, and classify the outcome. Returns the data dict as
sent (the Python code mutates the caller's dict in place, so this is
also the dict the caller keeps) together with the decoded response or an
error. -/
def get_page {α : Type} (url token : String) (d : Dict) (http : HttpResult α) :
    Dict × Except QueryError (ConduitResponse α) :=
  (prepare_page token d, get_page_classify url http)

/-- The loop body of `Phabricator._get_all_pages`: consume the scripted
HTTP responses one request at a time, threading the (mutated) data dict,
the accumulated records and the trace of dicts as sent. An exhausted
script models a server that stops answering, i.e. a transport failure. -/
def get_all_pages_aux {α : Type} (url token : String) :
    List (HttpResult α) → Dict → List α → List Dict → List Dict × Except QueryError (List α)
  | [], _, _, trace => (trace, Except.error (QueryError.transport url))
  | h :: rest, d, acc, trace =>
    let pr := get_page url token d h
    let trace' := trace ++ [pr.1]
    match pr.2 with
    | Except.error e => (trace', Except.error e)
    | Except.ok decoded =>
      match decoded.result with
      | none => (trace', Except.error QueryError.missingResult)
      | some data =>
        match decoded.cursor with
        | none => (trace', Except.ok (acc ++ data))
        | some none => (trace', Except.ok (acc ++ data))
        | some (some c) =>
          get_all_pages_aux url token rest (dset pr.1 "after" (Val.str c)) (acc ++ data) trace'

/-- Model of `Phabricator._get_all_pages`: seed `data_dict["after"] = None`, then
loop fetching pages until the cursor is exhausted. Returns the trace of
data dicts as sent (one per issued request) and the aggregated records
or the first error. -/
def get_all_pages {α : Type} (url token : String) (d : Dict) (script : List (HttpResult α)) :
    List Dict × Except QueryError (List α) :=
  get_all_pages_aux url token script (dset d "after" Val.null) [] []

/-- The f-string key of one indexed constraint,
`f"constraints[<family>][<idx>]"`. -/
def constraints_key (family : String) (idx : Nat) : String :=
  "constraints[" ++ family ++ "][" ++ toString idx ++ "]"

/-- The `for idx, login in enumerate(...)` loops that add one indexed
constraint per identifier to a data dict. -/
def add_indexed_constraints (family : String) (phids : List String) (d : Dict) : Dict :=
  (phids.enum).foldl (fun acc p => dset acc (constraints_key family p.1) (Val.str p.2)) d

/-- The data dict built by `Phabricator.search_diffs` (lines 89-99):
author PHIDs under `constraints[authorPHIDs][i]`, reviewer PHIDs ALSO
under `constraints[authorPHIDs][i]` (the literal key used on line 95),
then the `createdStart` / `createdEnd` epoch-second bounds
(`strftime("%s")` renders the epoch seconds as a decimal string). -/
def search_diffs_data_dict (sinceEpoch untilEpoch : Option Int)
    (author_phids reviewer_phids : Option (List String)) : Dict :=
  let d : Dict := []
  let d := match author_phids with
    | none => d
    | some l => add_indexed_constraints "authorPHIDs" l d
  let d := match reviewer_phids with
    | none => d
    | some l => add_indexed_constraints "authorPHIDs" l d
  let d := match sinceEpoch with
    | none => d
    | some s => dset d "constraints[createdStart]" (Val.str (toString s))
  match untilEpoch with
  | none => d
  | some u => dset d "constraints[createdEnd]" (Val.str (toString u))

/-- One observed access of the `Phabricator.login_phids` property:
the returned PHID list, the `_login_phids` field afterwards, and how
many `user.search` requests the access issued (0 or 1). -/
structure LoginPhidsAccess where
  result : List String
  cache : Option (List String)
  requests : Nat
deriving DecidableEq, Repr

/-- The `Phabricator.login_phids` property (lines 55-78). `cache` is the
`_login_phids` field before the access (`__init__` sets it to `some []`;
`none` models the `is None` arm of the guard). `server` is the PHID list
the `user.search` query would resolve to. The guard re-queries whenever
the cache is `None` OR the empty list. -/
def login_phids (server : List String) (cache : Option (List String)) : LoginPhidsAccess :=
  match cache with
  | none => { result := server, cache := some server, requests := 1 }
  | some c =>
    if c = [] then { result := server, cache := some server, requests := 1 }
    else { result := c, cache := some c, requests := 0 }

/-- The transaction event kinds of `class EventType`. -/
inductive EventType where
  | comment
  | inline
  | create
  | close
  | update
  | summary
  | title
  | projects
  | requestReview
  | reviewers
  | subscribers
  | status
  | undefined
deriving DecidableEq, Repr

/-- The canonical string of each event kind (the enum member values;
`str(typ)` returns exactly this). -/
def EventType.value : EventType → String
  | EventType.comment => "comment"
  | EventType.inline => "inline"
  | EventType.create => "create"
  | EventType.close => "close"
  | EventType.update => "update"
  | EventType.summary => "summary"
  | EventType.title => "title"
  | EventType.projects => "projects"
  | EventType.requestReview => "request-review"
  | EventType.reviewers => "reviewers"
  | EventType.subscribers => "subscribers"
  | EventType.status => "status"
  | EventType.undefined => ""

/-- Model of `datetime.date.fromtimestamp`: epoch seconds to the local calendar
date, modelled as the ordinal day number after shifting by the local
timezone offset `tz` (in seconds). -/
def date_fromtimestamp (tz : Int) (t : Int) : Int :=
  (t + tz).fdiv 86400

/-- A `TransactionEvent` as constructed from one raw transaction JSON
record: the raw `type` field (`none` models JSON null), the
`authorPHID`, and the `dateModified` epoch seconds kept in `_data`. -/
structure TransactionEvent where
  typ : Option String
  authorPHID : String
  dateModified : Int
deriving DecidableEq, Repr

/-- Model of `TransactionEvent.is_in_date_range`: convert `dateModified` to a
local calendar date, then require `date >= since` when `since` is given
and `date <= until` when `until` is given. -/
def TransactionEvent.is_in_date_range (e : TransactionEvent) (tz : Int)
    (sinceD untilD : Option Int) : Bool :=
  let date_modified := date_fromtimestamp tz e.dateModified
  match sinceD with
  | some s =>
    if ¬ (date_modified ≥ s) then false
    else
      match untilD with
      | some u => if ¬ (date_modified ≤ u) then false else true
      | none => true
  | none =>
    match untilD with
    | some u => if ¬ (date_modified ≤ u) then false else true
    | none => true

/-- Model of `TransactionEvent.is_type`: for `UNDEFINED`, true iff the raw type
is null or empty; otherwise Python's `self._type == str(typ)` (which is
`False` when `_type` is `None`). -/
def TransactionEvent.is_type (e : TransactionEvent) (typ : EventType) : Bool :=
  if typ = EventType.undefined then
    match e.typ with
    | none => true
    | some s => s = ""
  else
    match e.typ with
    | none => false
    | some s => s = typ.value

/-- The per-diff, per-event filtering loop of
`DifferentialsCommented.fetch` (lines 396-411). Each element of `diffs`
pairs a fetched Differential with its fetched transaction events; the
loop skips out-of-window events, appends the diff to `commented` for
each comment/inline event, and appends it to `closed` for each close
event. Returns `(commented_diffs, closed_diffs)`. -/
def differentials_commented_scan {α : Type} (tz : Int) (sinceD untilD : Option Int)
    (diffs : List (α × List TransactionEvent)) : List α × List α :=
  diffs.foldl (fun acc pair =>
    pair.2.foldl (fun acc2 event =>
      if ¬ (event.is_in_date_range tz sinceD untilD) then acc2
      else if event.is_type EventType.comment || event.is_type EventType.inline then
        (acc2.1 ++ [pair.1], acc2.2)
      else if event.is_type EventType.close then
        (acc2.1, acc2.2 ++ [pair.1])
      else acc2) acc) ([], [])

/-- The `stats` list stored by `DifferentialsCommented.fetch`: only the
`commented_diffs` accumulator (`closed_diffs` is discarded). -/
def differentials_commented_fetch {α : Type} (tz : Int) (sinceD untilD : Option Int)
    (diffs : List (α × List TransactionEvent)) : List α :=
  (differentials_commented_scan tz sinceD untilD diffs).1

/-- An event qualifies a diff for the "commented" report: in the date
window and of type comment or inline. -/
def qualifying_event (tz : Int) (sinceD untilD : Option Int) (e : TransactionEvent) : Bool :=
  e.is_in_date_range tz sinceD untilD &&
    (e.is_type EventType.comment || e.is_type EventType.inline)

/-- An event that sends a diff to the (discarded) `closed_diffs` list:
in the date window, not a comment/inline event, and of type close. -/
def closing_event (tz : Int) (sinceD untilD : Option Int) (e : TransactionEvent) : Bool :=
  e.is_in_date_range tz sinceD untilD &&
    !(e.is_type EventType.comment || e.is_type EventType.inline) &&
    e.is_type EventType.close

/-- The parameter names of `Phabricator.search_diffs` (lines 80-85),
excluding `self`. -/
def search_diffs_param_names : List String :=
  ["verbose", "since", "until", "author_phids", "reviewer_phids"]

/-- The keyword-argument names used by the `search_diffs(...)` call in
`DifferentialsCreated.fetch` (lines 424-426). -/
def differentials_created_fetch_kwargs : List String :=
  ["data_dict", "verbose"]

/-- The keyword-argument names used by the `search_diffs(...)` call in
`DifferentialsReviewed.fetch` (lines 439-441). -/
def differentials_reviewed_fetch_kwargs : List String :=
  ["data_dict", "verbose"]

/-- Python call semantics: a call with keyword arguments binds without a
`TypeError` only if every keyword names a declared parameter. -/
def call_accepts_kwargs (params kwargs : List String) : Bool :=
  kwargs.all (fun k => params.contains k)

/-- The record list a well-formed page contributes (`res["result"]["data"]`). -/
def page_data {α : Type} (r : ConduitResponse α) : List α :=
  r.result.getD []

/-- A well-formed finite page sequence as produced by a paginating
server: every page carries a `result` container and a null `error_info`,
every non-final page carries a cursor with a non-null `after` token, and
the final page's cursor is absent or carries a null `after`. -/
inductive PageChain {α : Type} : List (ConduitResponse α) → Prop where
  | single (r : ConduitResponse α) (l : List α) (hres : r.result = some l)
      (hinfo : r.error_info = none)
      (hcur : r.cursor = none ∨ r.cursor = some none) : PageChain [r]
  | cons (r : ConduitResponse α) (l : List α) (c : String)
      (rest : List (ConduitResponse α)) (hres : r.result = some l)
      (hinfo : r.error_info = none) (hcur : r.cursor = some (some c))
      (hrest : PageChain rest) : PageChain (r :: rest)

/-- A data dict sent on the wire carries the configured token under
`api.token` and the maximum page size under `limit`. -/
def sent_ok (token : String) (d : Dict) : Prop :=
  dget d "api.token" = some (Val.str token) ∧
  dget d "limit" = some (Val.nat MAX_PAGE_SIZE)

/-- What holds of a data dict handed to `_get_page` by the plugin's
callers and by the pagination loop itself: `limit` and `api.token` are
either still unset or already set to their defaulted values. -/
def caller_dict_ok (token : String) (d : Dict) : Prop :=
  (dget d "limit" = none ∨ dget d "limit" = some (Val.nat MAX_PAGE_SIZE)) ∧
  (dget d "api.token" = none ∨ dget d "api.token" = some (Val.str token))

/-- The numeric value of a decimal digit character. -/
def digitVal (c : Char) : Nat :=
  c.toNat - Char.toNat (Char.ofNat 48)

/-- The number denoted by a list of decimal digit characters. -/
def decVal (l : List Char) : Nat :=
  l.foldl (fun a c => 10 * a + digitVal c) 0

/-! ## Dict lemmas -/

theorem dget_dset_self (d : Dict) (k : String) (v : Val) :
    dget (dset d k v) k = some v := by
  induction d with
  | nil => simp [dset, dget]
  | cons p rest ih =>
    obtain ⟨k₀, v₀⟩ := p
    by_cases h : k₀ = k
    · simp [dset, dget, h]
    · simp [dset, dget, h, ih]

theorem dget_dset_other (d : Dict) (k k' : String) (v : Val) (hne : k ≠ k') :
    dget (dset d k v) k' = dget d k' := by
  induction d with
  | nil => simp [dset, dget, hne]
  | cons p rest ih =>
    obtain ⟨k₀, v₀⟩ := p
    by_cases h : k₀ = k
    · subst h
      simp [dset, dget, hne]
    · simp [dset, dget, h, ih]

/-! ## Injectivity of decimal rendering, and constraint-key lemmas -/

theorem digitVal_digitChar (m : Nat) (h : m < 10) : digitVal (Nat.digitChar m) = m := by
  interval_cases m <;> decide

theorem toDigitsCore_append_eq (fuel n : Nat) (ds : List Char) :
    Nat.toDigitsCore 10 fuel n ds = Nat.toDigitsCore 10 fuel n [] ++ ds := by
  induction fuel generalizing n ds with
  | zero => simp [Nat.toDigitsCore]
  | succ fuel ih =>
    simp only [Nat.toDigitsCore]
    by_cases h : n / 10 = 0
    · simp [h]
    · simp only [h, if_false]
      rw [ih (n / 10) (Nat.digitChar (n % 10) :: ds), ih (n / 10) [Nat.digitChar (n % 10)]]
      simp

theorem decVal_append_singleton (l : List Char) (c : Char) :
    decVal (l ++ [c]) = 10 * decVal l + digitVal c := by
  simp [decVal, List.foldl_append]

theorem decVal_toDigitsCore (fuel : Nat) :
    ∀ n : Nat, n < fuel → decVal (Nat.toDigitsCore 10 fuel n []) = n := by
  induction fuel with
  | zero => intro n h; omega
  | succ fuel ih =>
    intro n h
    simp only [Nat.toDigitsCore]
    by_cases h10 : n / 10 = 0
    · have hn : n < 10 := by omega
      simp [h10, decVal, digitVal_digitChar (n % 10) (Nat.mod_lt n (by omega))]
      omega
    · simp only [h10, if_false]
      rw [toDigitsCore_append_eq, decVal_append_singleton]
      have hlt : n / 10 < fuel := by
        have := Nat.div_lt_self (by omega : 0 < n) (by omega : 1 < 10)
        omega
      rw [ih (n / 10) hlt, digitVal_digitChar (n % 10) (Nat.mod_lt n (by omega))]
      omega

theorem nat_repr_injective {m n : Nat} (h : Nat.repr m = Nat.repr n) : m = n := by
  have hd : Nat.toDigitsCore 10 (m + 1) m [] = Nat.toDigitsCore 10 (n + 1) n [] := by
    have h2 := congrArg String.data h
    simp only [Nat.repr, Nat.toDigits, List.asString] at h2
    exact h2
  have h1 := decVal_toDigitsCore (m + 1) m (Nat.lt_succ_self m)
  have h2 := decVal_toDigitsCore (n + 1) n (Nat.lt_succ_self n)
  rw [hd, h2] at h1
  exact h1.symm

theorem toString_nat_inj {m n : Nat} (h : toString m = toString n) : m = n :=
  nat_repr_injective h

theorem author_key_eq (i : Nat) :
    constraints_key "authorPHIDs" i = "constraints[authorPHIDs][" ++ toString i ++ "]" := by
  rw [constraints_key,
    show ("constraints[" ++ "authorPHIDs" ++ "][" : String) = "constraints[authorPHIDs]["
      from by decide]

theorem reviewer_key_eq (i : Nat) :
    constraints_key "reviewerPHIDs" i = "constraints[reviewerPHIDs][" ++ toString i ++ "]" := by
  rw [constraints_key,
    show ("constraints[" ++ "reviewerPHIDs" ++ "][" : String) = "constraints[reviewerPHIDs]["
      from by decide]

theorem string_append_ne_of_prefix (p1 p2 s1 s2 : String) (n : Nat)
    (h1 : n ≤ p1.data.length) (h2 : n ≤ p2.data.length)
    (hne : p1.data.take n ≠ p2.data.take n) : p1 ++ s1 ≠ p2 ++ s2 := by
  intro h
  apply hne
  have hd := congrArg String.data h
  rw [String.data_append, String.data_append] at hd
  have ht := congrArg (List.take n) hd
  rwa [List.take_eq_left_iff.mpr (Or.inr h1), List.take_eq_left_iff.mpr (Or.inr h2)] at ht

theorem author_key_ne_reviewer_key (i j : Nat) :
    constraints_key "authorPHIDs" i ≠ constraints_key "reviewerPHIDs" j := by
  rw [author_key_eq, reviewer_key_eq]
  rw [String.append_assoc, String.append_assoc]
  exact string_append_ne_of_prefix _ _ _ _ 25 (by decide) (by decide) (by decide)

theorem author_key_ne_createdStart (i : Nat) :
    constraints_key "authorPHIDs" i ≠ "constraints[createdStart]" := by
  rw [author_key_eq, String.append_assoc,
    show ("constraints[createdStart]" : String) = "constraints[createdStart]" ++ ""
      from by decide]
  exact string_append_ne_of_prefix _ _ _ _ 25 (by decide) (by decide) (by decide)

theorem author_key_ne_createdEnd (i : Nat) :
    constraints_key "authorPHIDs" i ≠ "constraints[createdEnd]" := by
  rw [author_key_eq, String.append_assoc,
    show ("constraints[createdEnd]" : String) = "constraints[createdEnd]" ++ ""
      from by decide]
  exact string_append_ne_of_prefix _ _ _ _ 23 (by decide) (by decide) (by decide)

theorem reviewer_key_ne_createdStart (i : Nat) :
    constraints_key "reviewerPHIDs" i ≠ "constraints[createdStart]" := by
  rw [reviewer_key_eq, String.append_assoc,
    show ("constraints[createdStart]" : String) = "constraints[createdStart]" ++ ""
      from by decide]
  exact string_append_ne_of_prefix _ _ _ _ 25 (by decide) (by decide) (by decide)

theorem reviewer_key_ne_createdEnd (i : Nat) :
    constraints_key "reviewerPHIDs" i ≠ "constraints[createdEnd]" := by
  rw [reviewer_key_eq, String.append_assoc,
    show ("constraints[createdEnd]" : String) = "constraints[createdEnd]" ++ ""
      from by decide]
  exact string_append_ne_of_prefix _ _ _ _ 23 (by decide) (by decide) (by decide)

theorem constraints_key_inj (family : String) {i j : Nat}
    (h : constraints_key family i = constraints_key family j) : i = j := by
  rw [constraints_key, constraints_key] at h
  have hd := congrArg String.data h
  simp only [String.data_append] at hd
  simp only [List.append_cancel_left_eq, List.append_cancel_right_eq] at hd
  exact toString_nat_inj (String.ext hd)

/-! ## Indexed constraint families -/

theorem dget_enumFrom_foldl_other (family : String) (l : List String) :
    ∀ (m : Nat) (d : Dict) (k : String),
    (∀ idx, m ≤ idx → k ≠ constraints_key family idx) →
    dget ((List.enumFrom m l).foldl
      (fun acc p => dset acc (constraints_key family p.1) (Val.str p.2)) d) k = dget d k := by
  induction l with
  | nil => intro m d k _; simp [List.enumFrom]
  | cons x xs ih =>
    intro m d k h
    simp only [List.enumFrom, List.foldl_cons]
    rw [ih (m + 1) _ k (fun idx hi => h idx (by omega))]
    exact dget_dset_other _ _ _ _ (fun he => h m (Nat.le_refl m) he.symm)

theorem dget_enumFrom_foldl_get (family : String) (l : List String) :
    ∀ (m : Nat) (d : Dict) (i : Nat), i < l.length →
    dget ((List.enumFrom m l).foldl
        (fun acc p => dset acc (constraints_key family p.1) (Val.str p.2)) d)
      (constraints_key family (m + i)) = some (Val.str (l.getD i "")) := by
  induction l with
  | nil => intro m d i h; simp at h
  | cons x xs ih =>
    intro m d i h
    simp only [List.enumFrom, List.foldl_cons]
    cases i with
    | zero =>
      rw [Nat.add_zero]
      rw [dget_enumFrom_foldl_other family xs (m + 1) _ _ (fun idx hi heq => by
        have := constraints_key_inj family heq
        omega)]
      simpa using dget_dset_self d (constraints_key family m) (Val.str x)
    | succ i' =>
      rw [show m + (i' + 1) = (m + 1) + i' from by omega]
      simpa using ih (m + 1) _ i' (by simpa using h)

theorem dget_add_indexed (family : String) (phids : List String) (d : Dict) (i : Nat)
    (h : i < phids.length) :
    dget (add_indexed_constraints family phids d) (constraints_key family i)
      = some (Val.str (phids.getD i "")) := by
  rw [add_indexed_constraints, show List.enum phids = List.enumFrom 0 phids from rfl]
  simpa using dget_enumFrom_foldl_get family phids 0 d i h

theorem dget_add_indexed_other (family : String) (phids : List String) (d : Dict) (k : String)
    (h : ∀ idx, k ≠ constraints_key family idx) :
    dget (add_indexed_constraints family phids d) k = dget d k := by
  rw [add_indexed_constraints, show List.enum phids = List.enumFrom 0 phids from rfl]
  exact dget_enumFrom_foldl_other family phids 0 d k (fun idx _ => h idx)

theorem dget_search_diffs_skip_dates (sE uE : Option Int) (rs : List String) (k : String)
    (h1 : "constraints[createdStart]" ≠ k) (h2 : "constraints[createdEnd]" ≠ k) :
    dget (search_diffs_data_dict sE uE none (some rs)) k
      = dget (add_indexed_constraints "authorPHIDs" rs []) k := by
  rcases sE with _ | s <;> rcases uE with _ | u <;> simp only [search_diffs_data_dict]
  · rw [dget_dset_other _ _ _ _ h2]
  · rw [dget_dset_other _ _ _ _ h1]
  · rw [dget_dset_other _ _ _ _ h2, dget_dset_other _ _ _ _ h1]

/-- C4: for every non-empty reviewer identifier list passed to
`search_diffs`, the built constraint mapping carries the reviewer
identifiers under the author-identifier keys
`constraints[authorPHIDs][i]`, dense and zero-based, and carries nothing
under any reviewer-identifier key `constraints[reviewerPHIDs][j]`. -/
theorem search_diffs_reviewer_phids_under_author_key (sinceEpoch untilEpoch : Option Int)
    (rs : List String) (hne : rs ≠ []) :
    (∀ i, i < rs.length →
      dget (search_diffs_data_dict sinceEpoch untilEpoch none (some rs))
        (constraints_key "authorPHIDs" i) = some (Val.str (rs.getD i ""))) ∧
    (∀ j, dget (search_diffs_data_dict sinceEpoch untilEpoch none (some rs))
        (constraints_key "reviewerPHIDs" j) = none) := by
  constructor
  · intro i hi
    rw [dget_search_diffs_skip_dates sinceEpoch untilEpoch rs _
      (Ne.symm (author_key_ne_createdStart i)) (Ne.symm (author_key_ne_createdEnd i))]
    exact dget_add_indexed "authorPHIDs" rs [] i hi
  · intro j
    rw [dget_search_diffs_skip_dates sinceEpoch untilEpoch rs _
      (Ne.symm (reviewer_key_ne_createdStart j)) (Ne.symm (reviewer_key_ne_createdEnd j))]
    rw [dget_add_indexed_other "authorPHIDs" rs [] _
      (fun idx => Ne.symm (author_key_ne_reviewer_key idx j))]
    rfl

/-- C4 witness: a concrete one-element reviewer list lands under
`constraints[authorPHIDs][0]`. -/
theorem search_diffs_reviewer_phids_under_author_key_witness :
    dget (search_diffs_data_dict none none none (some ["PHID-R"]))
      (constraints_key "authorPHIDs" 0) = some (Val.str (["PHID-R"].getD 0 "")) :=
  (search_diffs_reviewer_phids_under_author_key none none ["PHID-R"]
    (by simp)).1 0 (by simp)

/-! ## Report assemblers calling search_diffs (C2) -/

/-- C2: the claim that `DifferentialsCreated.fetch` and
`DifferentialsReviewed.fetch` complete by calling `search_diffs` and
store its result without raising is violated by the code: both call
`search_diffs(data_dict=..., verbose=...)`, but `search_diffs` declares
no parameter named `data_dict`, so each call raises a `TypeError` before
any request is made. This theorem evaluates the keyword binding of both
call sites against the declared parameter list. -/
theorem created_reviewed_fetch_raises_type_error :
    call_accepts_kwargs search_diffs_param_names differentials_created_fetch_kwargs = false ∧
    call_accepts_kwargs search_diffs_param_names differentials_reviewed_fetch_kwargs = false := by
  decide

/-! ## Login PHID caching (C3) -/

/-- C3 counterexample: with a server resolving the logins to an empty
PHID list, two successive accesses of `login_phids` issue two
`user.search` requests, refuting "the query is issued at most once per
instance lifetime ... including when the first resolution returned an
empty list". -/
theorem login_phids_empty_list_refetches :
    ¬ ((login_phids [] (some [])).requests
        + (login_phids [] (login_phids [] (some [])).cache).requests ≤ 1) := by
  decide

/-- C3 amended: the first access resolves and caches; a second access
returns the same list, and issues no further request exactly when the
first resolution was non-empty — when it returned the empty list, the
guard `_login_phids is None or _login_phids == []` re-issues the
query. -/
theorem login_phids_cache_spec (server : List String) :
    (login_phids server (some [])).requests = 1 ∧
    (login_phids server (some [])).result = server ∧
    (login_phids server (login_phids server (some [])).cache).result = server ∧
    (server ≠ [] →
      (login_phids server (login_phids server (some [])).cache).requests = 0 ∧
      (login_phids server (login_phids server (some [])).cache).cache = some server) ∧
    (server = [] →
      (login_phids server (login_phids server (some [])).cache).requests = 1) := by
  by_cases h : server = [] <;> simp [login_phids, h]

/-- C3 witness: with one resolved PHID the second access is served from
the cache without a request. -/
theorem login_phids_cache_spec_witness :
    (login_phids ["PHID-A"] (login_phids ["PHID-A"] (some [])).cache).requests = 0 :=
  ((login_phids_cache_spec ["PHID-A"]).2.2.2.1 (by simp)).1

/-! ## Date range and event type predicates (C7, C8) -/

/-- C7: `is_in_date_range(since, until)` is true iff the local calendar
date derived from `dateModified` is at least `since` (when given) and at
most `until` (when given), inclusive on both bounds; both bounds absent
always passes, an exactly-equal bound passes, and a bound one day inside
the other side fails. -/
theorem is_in_date_range_spec (e : TransactionEvent) (tz : Int) (sinceD untilD : Option Int) :
    (e.is_in_date_range tz sinceD untilD = true ↔
      ((∀ s, sinceD = some s → s ≤ date_fromtimestamp tz e.dateModified) ∧
       (∀ u, untilD = some u → date_fromtimestamp tz e.dateModified ≤ u))) ∧
    e.is_in_date_range tz none none = true ∧
    e.is_in_date_range tz (some (date_fromtimestamp tz e.dateModified))
      (some (date_fromtimestamp tz e.dateModified)) = true ∧
    e.is_in_date_range tz (some (date_fromtimestamp tz e.dateModified + 1)) untilD = false ∧
    e.is_in_date_range tz sinceD (some (date_fromtimestamp tz e.dateModified - 1)) = false := by
  refine ⟨?_, ?_, ?_, ?_, ?_⟩
  · rcases sinceD with _ | s <;> rcases untilD with _ | u <;>
      simp [TransactionEvent.is_in_date_range] <;> omega
  · simp [TransactionEvent.is_in_date_range]
  · simp [TransactionEvent.is_in_date_range]
  · rcases untilD with _ | u <;> simp [TransactionEvent.is_in_date_range] <;> omega
  · rcases sinceD with _ | s <;> simp [TransactionEvent.is_in_date_range] <;> omega

/-- C7 witness: an event whose modification timestamp is one day past
the epoch, checked against the window consisting of exactly that day. -/
theorem is_in_date_range_spec_witness :
    TransactionEvent.is_in_date_range ⟨some "comment", "PHID-U", 86400⟩ 0
      (some (date_fromtimestamp 0 86400)) (some (date_fromtimestamp 0 86400)) = true :=
  (is_in_date_range_spec ⟨some "comment", "PHID-U", 86400⟩ 0 none none).2.2.1

/-- C8: `is_type(UNDEFINED)` is true iff the raw type is null or the
empty string (hence false for any non-empty string), and for every other
kind `is_type` is true iff the raw type equals that kind's canonical
string value. -/
theorem is_type_spec (e : TransactionEvent) :
    (e.is_type EventType.undefined = true ↔ e.typ = none ∨ e.typ = some "") ∧
    (∀ k : EventType, k ≠ EventType.undefined →
      (e.is_type k = true ↔ e.typ = some (EventType.value k))) ∧
    (∀ s : String, e.typ = some s → s ≠ "" →
      e.is_type EventType.undefined = false) := by
  refine ⟨?_, ?_, ?_⟩
  · rcases he : e.typ with _ | s <;> simp [TransactionEvent.is_type, he]
  · intro k hk
    rcases he : e.typ with _ | s <;> simp [TransactionEvent.is_type, he, hk]
  · intro s hs hne
    simp [TransactionEvent.is_type, hs, hne]

/-- C8 witness: an event whose raw type is the non-empty string "close"
does not match the undefined kind. -/
theorem is_type_spec_witness :
    TransactionEvent.is_type ⟨some "close", "PHID-U", 0⟩ EventType.undefined = false :=
  (is_type_spec ⟨some "close", "PHID-U", 0⟩).2.2 "close" rfl (by simp)

/-! ## The commented report (C5, C10) -/

theorem commented_inner_foldl {α : Type} (tz : Int) (sD uD : Option Int) (d : α)
    (events : List TransactionEvent) :
    ∀ acc : List α × List α,
    events.foldl (fun acc2 event =>
      if ¬ (event.is_in_date_range tz sD uD) then acc2
      else if event.is_type EventType.comment || event.is_type EventType.inline then
        (acc2.1 ++ [d], acc2.2)
      else if event.is_type EventType.close then
        (acc2.1, acc2.2 ++ [d])
      else acc2) acc
    = (acc.1 ++ (events.filter (qualifying_event tz sD uD)).map (fun _ => d),
       acc.2 ++ (events.filter (closing_event tz sD uD)).map (fun _ => d)) := by
  induction events with
  | nil => intro acc; simp
  | cons e es ih =>
    intro acc
    simp only [List.foldl_cons]
    by_cases h1 : e.is_in_date_range tz sD uD = true
    · by_cases h2 : (e.is_type EventType.comment || e.is_type EventType.inline) = true
      · rw [ih]
        simp [qualifying_event, closing_event, h1, h2, List.filter_cons]
      · by_cases h3 : e.is_type EventType.close = true
        · rw [ih]
          simp only [Bool.not_eq_true] at h2
          simp [qualifying_event, closing_event, h1, h2, h3, List.filter_cons]
        · rw [ih]
          simp only [Bool.not_eq_true] at h2 h3
          simp [qualifying_event, closing_event, h1, h2, h3, List.filter_cons]
    · rw [ih]
      simp only [Bool.not_eq_true] at h1
      simp [qualifying_event, closing_event, h1, List.filter_cons]

theorem differentials_commented_scan_eq {α : Type} (tz : Int) (sD uD : Option Int)
    (diffs : List (α × List TransactionEvent)) :
    differentials_commented_scan tz sD uD diffs
      = (diffs.bind (fun p => (p.2.filter (qualifying_event tz sD uD)).map (fun _ => p.1)),
         diffs.bind (fun p => (p.2.filter (closing_event tz sD uD)).map (fun _ => p.1))) := by
  rw [differentials_commented_scan]
  suffices h : ∀ acc : List α × List α,
      diffs.foldl (fun acc pair =>
        pair.2.foldl (fun acc2 event =>
          if ¬ (event.is_in_date_range tz sD uD) then acc2
          else if event.is_type EventType.comment || event.is_type EventType.inline then
            (acc2.1 ++ [pair.1], acc2.2)
          else if event.is_type EventType.close then
            (acc2.1, acc2.2 ++ [pair.1])
          else acc2) acc) acc
      = (acc.1 ++ diffs.bind (fun p => (p.2.filter (qualifying_event tz sD uD)).map (fun _ => p.1)),
         acc.2 ++ diffs.bind (fun p => (p.2.filter (closing_event tz sD uD)).map (fun _ => p.1))) by
    simpa using h ([], [])
  induction diffs with
  | nil => intro acc; simp
  | cons p ps ih =>
    intro acc
    simp only [List.foldl_cons]
    rw [commented_inner_foldl tz sD uD p.1 p.2 acc, ih]
    simp [List.append_assoc]

theorem differentials_commented_fetch_eq {α : Type} (tz : Int) (sD uD : Option Int)
    (diffs : List (α × List TransactionEvent)) :
    differentials_commented_fetch tz sD uD diffs
      = diffs.bind (fun p => (p.2.filter (qualifying_event tz sD uD)).map (fun _ => p.1)) := by
  rw [differentials_commented_fetch, differentials_commented_scan_eq]

theorem close_event_not_comment_inline (e : TransactionEvent)
    (h : e.is_type EventType.close = true) :
    e.is_type EventType.comment = false ∧ e.is_type EventType.inline = false := by
  rcases he : e.typ with _ | s
  · simp [TransactionEvent.is_type, he] at h
  · simp [TransactionEvent.is_type, he, EventType.value] at h ⊢
    subst h
    constructor <;> decide

/-- C5: a diff is kept by the "commented" report exactly when at least
one of its events is in the window and of type comment or inline; a diff
whose only event is a close event is excluded even when it is in the
window. -/
theorem commented_keeps_iff {α : Type} (tz : Int) (sD uD : Option Int)
    (diffs : List (α × List TransactionEvent)) (d : α) :
    (d ∈ differentials_commented_fetch tz sD uD diffs ↔
      ∃ p ∈ diffs, p.1 = d ∧ ∃ e ∈ p.2,
        e.is_in_date_range tz sD uD = true ∧
        (e.is_type EventType.comment = true ∨ e.is_type EventType.inline = true)) ∧
    (∀ (d' : α) (e : TransactionEvent), e.is_type EventType.close = true →
      differentials_commented_fetch tz sD uD [(d', [e])] = []) := by
  constructor
  · rw [differentials_commented_fetch_eq]
    simp only [List.mem_bind, List.mem_map, List.mem_filter, qualifying_event,
      Bool.and_eq_true, Bool.or_eq_true]
    constructor
    · rintro ⟨p, hp, e, ⟨he, hr, hk⟩, hd⟩
      exact ⟨p, hp, hd, e, he, hr, hk⟩
    · rintro ⟨p, hp, hd, e, he, hr, hk⟩
      exact ⟨p, hp, e, ⟨he, hr, hk⟩, hd⟩
  · intro d' e hclose
    obtain ⟨h1, h2⟩ := close_event_not_comment_inline e hclose
    rw [differentials_commented_fetch_eq]
    simp [qualifying_event, h1, h2]

/-- C5 witness: a diff whose only event is an in-window close event is
excluded from the commented report. -/
theorem commented_keeps_iff_witness :
    differentials_commented_fetch 0 none none
      [(("D1" : String), [⟨some "close", "PHID-U", 0⟩])] = [] :=
  (commented_keeps_iff 0 none none ([] : List (String × List TransactionEvent)) "D1").2
    "D1" ⟨some "close", "PHID-U", 0⟩ (by decide)

theorem count_map_const {α β : Type} [DecidableEq β] (l : List α) (a d : β) :
    (l.map (fun _ => a)).count d = if a = d then l.length else 0 := by
  induction l with
  | nil => simp
  | cons x xs ih =>
    by_cases h : a = d
    · simp [List.count_cons, ih, h]
    · simp [List.count_cons, ih, h, List.count_replicate,
        show d ≠ a from fun hd => h hd.symm]

/-- C10: each qualifying event appends the diff once, so the number of
occurrences of a diff in the stored result equals the total number of
its in-window comment/inline events — duplicates arise whenever that
count exceeds one. -/
theorem commented_count_per_event {α : Type} [DecidableEq α] (tz : Int) (sD uD : Option Int)
    (diffs : List (α × List TransactionEvent)) (d : α) :
    (differentials_commented_fetch tz sD uD diffs).count d
      = (diffs.map (fun p =>
          if p.1 = d then (p.2.filter (qualifying_event tz sD uD)).length else 0)).sum := by
  rw [differentials_commented_fetch_eq]
  induction diffs with
  | nil => simp
  | cons p ps ih =>
    simp only [List.cons_bind, List.map_cons, List.sum_cons, List.count_append, ih,
      count_map_const]

/-! ## Pagination (C1, C6, C9) -/

theorem get_all_pages_aux_chain {α : Type} (url token : String)
    {pages : List (ConduitResponse α)} (h : PageChain pages) :
    ∀ (d : Dict) (acc : List α) (trace : List Dict),
    (get_all_pages_aux url token
        (pages.map (fun r => HttpResult.response 200 (some r))) d acc trace).2
      = Except.ok (acc ++ (pages.map page_data).join) := by
  induction h with
  | single r l hres hinfo hcur =>
    intro d acc trace
    rcases hcur with hc | hc <;>
      simp [get_all_pages_aux, get_page, get_page_classify, hres, hinfo, hc, page_data]
  | cons r l c rest hres hinfo hcur hrest ih =>
    intro d acc trace
    simp [get_all_pages_aux, get_page, get_page_classify, hres, hinfo, hcur, ih, page_data,
      List.append_assoc]

/-- C1: over a well-formed finite page sequence the paginated fetch
terminates with the concatenation of all pages' record lists, in
page-then-within-page order; the aggregate length is the sum of the
per-page record counts; and a first page without a cursor container ends
the fetch after that single page. -/
theorem get_all_pages_paginates {α : Type} (url token : String) (d : Dict)
    (pages : List (ConduitResponse α)) (h : PageChain pages) :
    (get_all_pages url token d (pages.map (fun r => HttpResult.response 200 (some r)))).2
        = Except.ok ((pages.map page_data).join) ∧
    ((pages.map page_data).join).length
        = (pages.map (fun r => (page_data r).length)).sum ∧
    (∀ (r : ConduitResponse α) (rest : List (HttpResult α)) (l : List α),
      r.result = some l → r.error_info = none → r.cursor = none →
      (get_all_pages url token d (HttpResult.response 200 (some r) :: rest)).2
        = Except.ok l) := by
  refine ⟨?_, ?_, ?_⟩
  · rw [get_all_pages]
    simpa using get_all_pages_aux_chain url token h (dset d "after" Val.null) [] []
  · rw [List.length_join, List.map_map]
    rfl
  · intro r rest l hres hinfo hcur
    rw [get_all_pages]
    simp [get_all_pages_aux, get_page, get_page_classify, hres, hinfo, hcur]

/-- C1 witness: a two-page sequence (two records then one, final cursor
null) aggregates to the three records in order. -/
theorem get_all_pages_paginates_witness :
    (get_all_pages "u" "t" []
        ([(⟨none, some ["a", "b"], some (some "X")⟩ : ConduitResponse String),
          ⟨none, some ["c"], some none⟩].map (fun r => HttpResult.response 200 (some r)))).2
      = Except.ok (([(⟨none, some ["a", "b"], some (some "X")⟩ : ConduitResponse String),
          ⟨none, some ["c"], some none⟩].map page_data).join) :=
  (get_all_pages_paginates "u" "t" [] _
    (PageChain.cons _ ["a", "b"] "X" _ rfl rfl rfl
      (PageChain.single _ ["c"] rfl rfl (Or.inr rfl)))).1

/-- C6: a single-page fetch with HTTP status 200 and a body that parses
to a response with non-null `error_info` fails with the remote API error
carrying the server-supplied description, and any paginated fetch whose
first response is of that shape returns that error and no records. -/
theorem error_info_raises_remote_api_error {α : Type} (url token : String) (d : Dict)
    (decoded : ConduitResponse α) (info : String) (h : decoded.error_info = some info) :
    (get_page url token d (HttpResult.response 200 (some decoded))).2
        = Except.error (QueryError.remoteApi info) ∧
    (∀ rest : List (HttpResult α),
      (get_all_pages url token d (HttpResult.response 200 (some decoded) :: rest)).2
        = Except.error (QueryError.remoteApi info)) := by
  constructor
  · simp [get_page, get_page_classify, h]
  · intro rest
    rw [get_all_pages]
    simp [get_all_pages_aux, get_page, get_page_classify, h]

/-- C6 witness: a 200-status response with `error_info` "ERR" fails with
a remote API error carrying "ERR". -/
theorem error_info_raises_remote_api_error_witness :
    (get_page "u" "t" []
        (HttpResult.response 200
          (some (⟨some "ERR", some [], some none⟩ : ConduitResponse String)))).2
      = Except.error (QueryError.remoteApi "ERR") :=
  (error_info_raises_remote_api_error "u" "t" [] _ "ERR" rfl).1

theorem prepare_page_sent_ok (token : String) (d : Dict) (h : caller_dict_ok token d) :
    sent_ok token (prepare_page token d) := by
  obtain ⟨hl, ht⟩ := h
  have hne1 : ("limit" : String) ≠ "api.token" := by decide
  have hne2 : ("api.token" : String) ≠ "limit" := by decide
  rcases hl with hl | hl <;> rcases ht with ht | ht
  · have e : prepare_page token d
        = dset (dset d "limit" (Val.nat MAX_PAGE_SIZE)) "api.token" (Val.str token) := by
      simp only [prepare_page, hl]
      rw [dget_dset_other _ _ _ _ hne1, ht]
    rw [e]
    exact ⟨dget_dset_self _ _ _, by
      rw [dget_dset_other _ _ _ _ hne2]
      exact dget_dset_self _ _ _⟩
  · have e : prepare_page token d = dset d "limit" (Val.nat MAX_PAGE_SIZE) := by
      simp only [prepare_page, hl]
      rw [dget_dset_other _ _ _ _ hne1, ht]
    rw [e]
    exact ⟨by
      rw [dget_dset_other _ _ _ _ hne1]
      exact ht, dget_dset_self _ _ _⟩
  · have e : prepare_page token d = dset d "api.token" (Val.str token) := by
      simp only [prepare_page, hl, ht]
    rw [e]
    exact ⟨dget_dset_self _ _ _, by
      rw [dget_dset_other _ _ _ _ hne2]
      exact hl⟩
  · have e : prepare_page token d = d := by
      simp only [prepare_page, hl, ht]
    rw [e]
    exact ⟨ht, hl⟩

theorem sent_ok_caller_after (token : String) (d : Dict) (v : Val) (h : sent_ok token d) :
    caller_dict_ok token (dset d "after" v) := by
  obtain ⟨ht, hl⟩ := h
  constructor
  · right
    rw [dget_dset_other _ _ _ _ (by decide : ("after" : String) ≠ "limit")]
    exact hl
  · right
    rw [dget_dset_other _ _ _ _ (by decide : ("after" : String) ≠ "api.token")]
    exact ht

theorem get_all_pages_aux_sent_ok {α : Type} (url token : String)
    (script : List (HttpResult α)) :
    ∀ (d : Dict) (acc : List α) (trace : List Dict),
    caller_dict_ok token d → (∀ x ∈ trace, sent_ok token x) →
    ∀ x ∈ (get_all_pages_aux url token script d acc trace).1, sent_ok token x := by
  induction script with
  | nil =>
    intro d acc trace _ htr x hx
    exact htr x (by simpa [get_all_pages_aux] using hx)
  | cons h rest ih =>
    intro d acc trace hd htr x hx
    have hsent : sent_ok token (prepare_page token d) := prepare_page_sent_ok token d hd
    have htr' : ∀ y ∈ trace ++ [prepare_page token d], sent_ok token y := by
      intro y hy
      rcases List.mem_append.mp hy with hy | hy
      · exact htr y hy
      · rw [List.mem_singleton.mp hy]
        exact hsent
    simp only [get_all_pages_aux, get_page] at hx
    split at hx
    · exact htr' x hx
    · split at hx
      · exact htr' x hx
      · split at hx
        · exact htr' x hx
        · exact htr' x hx
        · exact ih _ _ _ (sent_ok_caller_after _ _ _ hsent) htr' x hx

/-- C9: when the caller's data dict does not set `limit` or `api.token`
(as holds for every caller in the plugin), every request of the
paginated fetch is sent with `api.token` bound to the configured token
and `limit` bound to the maximum page size constant, which is 100. -/
theorem every_request_carries_token_and_limit {α : Type} (url token : String) (d : Dict)
    (script : List (HttpResult α))
    (hl : dget d "limit" = none) (ht : dget d "api.token" = none) :
    (∀ sent ∈ (get_all_pages url token d script).1,
      dget sent "api.token" = some (Val.str token) ∧
      dget sent "limit" = some (Val.nat MAX_PAGE_SIZE)) ∧
    MAX_PAGE_SIZE = 100 := by
  constructor
  · intro sent hs
    have hc : caller_dict_ok token (dset d "after" Val.null) := by
      constructor
      · left
        rw [dget_dset_other _ _ _ _ (by decide : ("after" : String) ≠ "limit")]
        exact hl
      · left
        rw [dget_dset_other _ _ _ _ (by decide : ("after" : String) ≠ "api.token")]
        exact ht
    exact get_all_pages_aux_sent_ok url token script _ [] [] hc (by simp) sent hs
  · rfl

/-- C9 witness: the one request of a one-page fetch carries the token
and the limit. -/
theorem every_request_carries_token_and_limit_witness :
    dget (prepare_page "tok" (dset [] "after" Val.null)) "api.token"
        = some (Val.str "tok") ∧
    dget (prepare_page "tok" (dset [] "after" Val.null)) "limit"
        = some (Val.nat MAX_PAGE_SIZE) :=
  (every_request_carries_token_and_limit "u" "tok" []
      [HttpResult.response 200
        (some (⟨none, some ([] : List String), none⟩ : ConduitResponse String))]
      rfl rfl).1
    (prepare_page "tok" (dset [] "after" Val.null))
    (by simp [get_all_pages, get_all_pages_aux, get_page, get_page_classify])

end Phab
